import Mathlib

/-!
# Verification of the Solana copy-trading bot's core components

Shallow embedding of the repository's rate limiter (`rate_limiter.py`),
the wallet monitor's deduplication, retry and trimming logic
(`solana_trade_bot.py`) and the wallet analyzer's threshold filter
(`solana_wallet_finder.py`), together with proofs of the specification's
claims about them.

Python floats (timestamps, SOL amounts, rates) are modelled as exact
rationals; Python ints as `Nat`/`Int`.
-/

namespace CryptoBot

/-! ## Rate limiter (`rate_limiter.py`, class `GlobalRateLimiter`)

The singleton's mutable state is `last_request` (a float timestamp) and
`backoff_time` (an int, starting at 5).  `min_interval` is the constant 5.0.
-/

/-- `min_interval = 5.0  # 5 seconds between requests` (rate_limiter.py:19). -/
def minInterval : ℚ := 5

/-- Mutable state of `GlobalRateLimiter`: `last_request` (initialised to 0,
rate_limiter.py:18) and `backoff_time` (initialised to 5, rate_limiter.py:20). -/
structure RateState where
  lastRequest : ℚ
  backoffTime : ℕ
deriving Repr, DecidableEq

/-- Freshly constructed limiter state (rate_limiter.py:18-20). -/
def initRateState : RateState := ⟨0, 5⟩

/-- The backoff update performed by `handle_429`
(rate_limiter.py:36): `self.backoff_time = min(self.backoff_time * 2, 60)`. -/
def handle429Backoff (b : ℕ) : ℕ := min (b * 2) 60

/-- `wait` (rate_limiter.py:23-31): given the current state, the time `tNow`
at which the call starts and the time `tRet` at which it returns (after the
sleep, when `time.time()` is read again), it sleeps for
`min_interval - elapsed` when `elapsed < min_interval`, and sets
`last_request` to `tRet`.  Returns the new state and the requested sleep
duration. -/
def wait (s : RateState) (tNow tRet : ℚ) : RateState × ℚ :=
  let elapsed := tNow - s.lastRequest
  let delay := if elapsed < minInterval then minInterval - elapsed else 0
  (⟨tRet, s.backoffTime⟩, delay)

/-- `handle_429` (rate_limiter.py:33-37): sleeps for the current
`backoff_time`, then doubles it saturating at 60.  Returns the new state and
the slept duration. -/
def handle429 (s : RateState) : RateState × ℕ :=
  (⟨s.lastRequest, handle429Backoff s.backoffTime⟩, s.backoffTime)

/-- `reset_backoff` (rate_limiter.py:39-41): `self.backoff_time = 5`. -/
def resetBackoff (s : RateState) : RateState :=
  ⟨s.lastRequest, 5⟩

/-- One operation on the shared rate-limiter state.  `wait` carries the call
time and the return time of the suspension. -/
inductive RateOp where
  | wait (tNow tRet : ℚ)
  | handle429
  | resetBackoff
deriving Repr

/-- State transition of the rate limiter under one operation. -/
def rateStep (s : RateState) : RateOp → RateState
  | .wait tNow tRet => (wait s tNow tRet).1
  | .handle429 => (handle429 s).1
  | .resetBackoff => resetBackoff s

/-- Running a sequence of operations from a state. -/
def rateRun (s : RateState) (ops : List RateOp) : RateState :=
  ops.foldl rateStep s

lemma handle429Backoff_iterate (N : ℕ) :
    handle429Backoff^[N] 5 = min (5 * 2 ^ N) 60 := by
  induction N with
  | zero => simp [handle429Backoff]
  | succ n ih =>
      rw [Function.iterate_succ_apply', ih, handle429Backoff]
      rcases le_or_lt (5 * 2 ^ n) 60 with h | h
      · rw [min_eq_left h, pow_succ]
        ring_nf
      · rw [min_eq_right h.le, min_eq_right, min_eq_right]
        · calc 60 ≤ 5 * 2 ^ n := h.le
            _ ≤ 5 * 2 ^ (n + 1) := by
              gcongr <;> simp [Nat.one_le_two_pow]
        · omega

/-- A sequence of `N` consecutive `handle_429` calls, as operations. -/
def nRateLimits (N : ℕ) : List RateOp := List.replicate N .handle429

lemma rateRun_replicate_handle429 (s : RateState) (N : ℕ) :
    rateRun s (nRateLimits N) =
      ⟨s.lastRequest, handle429Backoff^[N] s.backoffTime⟩ := by
  induction N generalizing s with
  | zero => simp [rateRun, nRateLimits]
  | succ n ih =>
      simp only [nRateLimits, List.replicate_succ, rateRun, List.foldl_cons]
      have := ih ⟨s.lastRequest, handle429Backoff s.backoffTime⟩
      simp only [rateRun, nRateLimits] at this
      rw [show rateStep s RateOp.handle429
            = (⟨s.lastRequest, handle429Backoff s.backoffTime⟩ : RateState) from rfl,
          this, ← Function.iterate_succ_apply]

/-- **C1.** Starting from the initial backoff value (5 s), after any sequence
of `N` consecutive `handle_429` calls with no intervening `reset_backoff`,
`backoff_time = min(5 * 2^N, 60)`; in particular after 4 consecutive
rejections `backoff_time` is 60, not 80. -/
theorem backoff_after_N_rate_limits :
    (∀ N : ℕ,
      (rateRun initRateState (nRateLimits N)).backoffTime = min (5 * 2 ^ N) 60)
    ∧ (rateRun initRateState (nRateLimits 4)).backoffTime = 60
    ∧ (rateRun initRateState (nRateLimits 4)).backoffTime ≠ 80 := by
  refine ⟨fun N => ?_, by decide, by decide⟩
  rw [rateRun_replicate_handle429]
  exact handle429Backoff_iterate N

/-- **C2.** A `wait` call with `elapsed < min_interval` requests a sleep of
exactly `min_interval - elapsed` (hence at least that long), records the
return time `tRet` as the new `last_request`, and leaves `backoff_time`
untouched; the operation is total (it always returns a state, never fails). -/
theorem wait_delays_and_updates (s : RateState) (tNow tRet : ℚ)
    (h : tNow - s.lastRequest < minInterval) :
    (wait s tNow tRet).2 = minInterval - (tNow - s.lastRequest)
    ∧ minInterval - (tNow - s.lastRequest) ≤ (wait s tNow tRet).2
    ∧ (wait s tNow tRet).1.lastRequest = tRet
    ∧ (wait s tNow tRet).1.backoffTime = s.backoffTime := by
  refine ⟨?_, ?_, rfl, rfl⟩ <;> simp [wait, if_pos h]

/-- Witness for C2: a concrete call 2 s after the previous one sleeps 3 s. -/
theorem wait_delays_and_updates_witness :
    (2 : ℚ) - initRateState.lastRequest < minInterval
    ∧ (wait initRateState 2 5).2 = minInterval - (2 - initRateState.lastRequest) :=
  ⟨by norm_num [initRateState, minInterval],
   (wait_delays_and_updates initRateState 2 5
      (by norm_num [initRateState, minInterval])).1⟩

/-- The invariant of C3: `5 ≤ backoff_time ≤ 60`. -/
def backoffInv (s : RateState) : Prop := 5 ≤ s.backoffTime ∧ s.backoffTime ≤ 60

instance (s : RateState) : Decidable (backoffInv s) := by
  unfold backoffInv; infer_instance

lemma backoffInv_step (s : RateState) (op : RateOp) (h : backoffInv s) :
    backoffInv (rateStep s op) := by
  obtain ⟨h1, h2⟩ := h
  cases op with
  | wait tNow tRet => exact ⟨h1, h2⟩
  | handle429 =>
      constructor
      · simp only [rateStep, handle429, handle429Backoff]
        omega
      · simp only [rateStep, handle429, handle429Backoff]
        omega
  | resetBackoff =>
      refine ⟨le_refl 5, ?_⟩
      show (5 : ℕ) ≤ 60
      omega

/-- **C3.** From the freshly constructed state, every interleaving of `wait`,
`handle_429` and `reset_backoff` preserves `5 ≤ backoff_time ≤ 60`; moreover
`wait` leaves `backoff_time` unchanged, `handle_429` replaces it by
`min(2·b, 60)`, and `reset_backoff` sets it to 5. -/
theorem backoff_invariant :
    (∀ ops : List RateOp, backoffInv (rateRun initRateState ops))
    ∧ (∀ s tNow tRet, (rateStep s (.wait tNow tRet)).backoffTime = s.backoffTime)
    ∧ (∀ s, (rateStep s .handle429).backoffTime = min (s.backoffTime * 2) 60)
    ∧ (∀ s, (rateStep s .resetBackoff).backoffTime = 5) := by
  refine ⟨fun ops => ?_, fun _ _ _ => rfl, fun _ => rfl, fun _ => rfl⟩
  have : ∀ (l : List RateOp) (s : RateState),
      backoffInv s → backoffInv (rateRun s l) := by
    intro l
    induction l with
    | nil => intro s hs; exact hs
    | cons op rest ih =>
        intro s hs
        exact ih _ (backoffInv_step s op hs)
  exact this ops initRateState (by decide)

/-! ## Monitor retry loop (`solana_trade_bot.py`, `monitor_wallet`,
lines 201-223)

For one transaction signature the monitor runs
`for attempt in range(MAX_RETRIES):` around `get_transaction`.  An empty
result (`not hasattr(tx, 'value') or not tx.value`) consumes the attempt and
continues; a successful result breaks out; an exception containing "429"
triggers `rate_limiter.handle_429()` and retries if attempts remain, else
the exception is re-raised; any other exception is re-raised at once.  A
re-raised exception and the `for`-`else` branch are both caught or handled
inside `monitor_wallet` (lines 221-223 and 257-259) by skipping the
transaction and continuing with the next one. -/

/-- `MAX_RETRIES = int(os.getenv('MAX_RETRIES', '3'))` (solana_config.py:78),
with its default value 3. -/
def MAX_RETRIES : ℕ := 3

/-- Outcome of a single `get_transaction` call: a result with a value, a
result with no value (`not hasattr(tx, 'value') or not tx.value`), or an
exception whose string does or does not contain "429". -/
inductive FetchOutcome where
  | ok
  | empty
  | err (is429flag : Bool)
deriving Repr, DecidableEq

/-- Whether the outcome is a rate-limit exception (`"429" in str(e)`). -/
def FetchOutcome.is429 : FetchOutcome → Bool
  | .err true => true
  | _ => false

/-- Observable result of the retry loop for one transaction: whether a
transaction value was obtained, how many `get_transaction` calls were made,
how many times `handle_429` ran, and whether the transaction was skipped
(the `for`-`else` branch or an exception caught at lines 257-259). -/
structure LoopResult where
  success : Bool
  fetchCalls : ℕ
  backoffCalls : ℕ
  skipped : Bool
deriving Repr, DecidableEq

/-- The retry loop of `monitor_wallet` (lines 201-223), over the list of
outcomes the RPC produces for the successive attempts, with accumulators for
the number of `get_transaction` calls made and `handle_429` invocations so
far.  Exhausting the list is the `for`-`else` skip; an `ok` outcome breaks
with success after `reset_backoff`; `empty` consumes the attempt and
continues; a 429 exception runs `handle_429` and retries (re-raising on the
last attempt gives the same skipped result as exhausting the list); any
other exception is re-raised and caught by the per-transaction handler,
skipping the item. -/
def retryLoop : List FetchOutcome → ℕ → ℕ → LoopResult
  | [], atts, bo => ⟨false, atts, bo, true⟩
  | o :: rest, atts, bo =>
    match o with
    | .ok => ⟨true, atts + 1, bo, false⟩
    | .empty => retryLoop rest (atts + 1) bo
    | .err true => retryLoop rest (atts + 1) (bo + 1)
    | .err false => ⟨false, atts + 1, bo, true⟩

/-- The fetch phase for one signature: the loop runs over the outcomes of at
most `MAX_RETRIES` attempts, starting with zero calls made. -/
def processTxFetch (outs : List FetchOutcome) : LoopResult :=
  retryLoop outs 0 0

/-- The per-wallet monitoring pass over the (deduplicated) new signatures:
each one is processed by the retry loop on its own outcome list; a skipped
transaction does not stop the iteration. -/
def monitorFetches (env : ℕ → List FetchOutcome) (sigs : List ℕ) :
    List LoopResult :=
  sigs.map (fun sig => processTxFetch (env sig))

lemma retryLoop_spec (outs : List FetchOutcome) :
    ∀ atts bo,
      atts ≤ (retryLoop outs atts bo).fetchCalls
      ∧ (retryLoop outs atts bo).fetchCalls ≤ atts + outs.length
      ∧ (retryLoop outs atts bo).backoffCalls
          = bo + ((outs.take ((retryLoop outs atts bo).fetchCalls - atts)).countP
              (FetchOutcome.is429 ·))
      ∧ ((retryLoop outs atts bo).success = true
          ∨ (retryLoop outs atts bo).skipped = true) := by
  induction outs with
  | nil =>
      intro atts bo
      simp [retryLoop]
  | cons o rest ih =>
      intro atts bo
      cases o with
      | ok =>
          refine ⟨by simp [retryLoop], by simp [retryLoop], ?_, by simp [retryLoop]⟩
          simp [retryLoop, FetchOutcome.is429]
      | empty =>
          obtain ⟨h1, h2, h3, h4⟩ := ih (atts + 1) bo
          have hstep : retryLoop (FetchOutcome.empty :: rest) atts bo
              = retryLoop rest (atts + 1) bo := rfl
          obtain ⟨k, hk⟩ : ∃ k, (retryLoop rest (atts + 1) bo).fetchCalls = atts + 1 + k :=
            ⟨_, (Nat.add_sub_cancel' h1).symm⟩
          refine ⟨?_, ?_, ?_, ?_⟩
          · rw [hstep]; omega
          · rw [hstep]; simp only [List.length_cons]; omega
          · rw [hstep, h3]
            have hk1 : (retryLoop rest (atts + 1) bo).fetchCalls - (atts + 1) = k := by omega
            have hk2 : (retryLoop rest (atts + 1) bo).fetchCalls - atts = k + 1 := by omega
            rw [hk1, hk2, List.take_succ_cons, List.countP_cons]
            simp [FetchOutcome.is429]
          · rw [hstep]; exact h4
      | err b =>
          cases b with
          | true =>
              obtain ⟨h1, h2, h3, h4⟩ := ih (atts + 1) (bo + 1)
              have hstep : retryLoop (FetchOutcome.err true :: rest) atts bo
                  = retryLoop rest (atts + 1) (bo + 1) := rfl
              obtain ⟨k, hk⟩ : ∃ k,
                  (retryLoop rest (atts + 1) (bo + 1)).fetchCalls = atts + 1 + k :=
                ⟨_, (Nat.add_sub_cancel' h1).symm⟩
              refine ⟨?_, ?_, ?_, ?_⟩
              · rw [hstep]; omega
              · rw [hstep]; simp only [List.length_cons]; omega
              · rw [hstep, h3]
                have hk1 : (retryLoop rest (atts + 1) (bo + 1)).fetchCalls - (atts + 1) = k := by
                  omega
                have hk2 : (retryLoop rest (atts + 1) (bo + 1)).fetchCalls - atts = k + 1 := by
                  omega
                rw [hk1, hk2, List.take_succ_cons, List.countP_cons]
                simp only [FetchOutcome.is429, if_pos]
                omega
              · rw [hstep]; exact h4
          | false =>
              refine ⟨by simp [retryLoop], by simp [retryLoop], ?_, by simp [retryLoop]⟩
              simp [retryLoop, FetchOutcome.is429]

/-- **C4.** With outcome lists of length `MAX_RETRIES` (= 3), the retry loop
for a transaction makes at most `MAX_RETRIES` `get_transaction` calls; each
429 outcome among the consumed attempts triggers exactly one `handle_429`
call; and the loop always terminates in either success or a skip of that
transaction (never a crash of the process); moreover the per-wallet pass
handles every deduplicated signature, so monitoring continues past exhausted
items. -/
theorem monitor_retry_bounded :
    (∀ outs : List FetchOutcome, outs.length = MAX_RETRIES →
      (processTxFetch outs).fetchCalls ≤ MAX_RETRIES
      ∧ (processTxFetch outs).backoffCalls
          = ((outs.take (processTxFetch outs).fetchCalls).countP (FetchOutcome.is429 ·))
      ∧ ((processTxFetch outs).success = true ∨ (processTxFetch outs).skipped = true))
    ∧ ∀ (env : ℕ → List FetchOutcome) (sigs : List ℕ),
        (monitorFetches env sigs).length = sigs.length := by
  constructor
  · intro outs h
    obtain ⟨h1, h2, h3, h4⟩ := retryLoop_spec outs 0 0
    refine ⟨?_, ?_, h4⟩
    · simpa [processTxFetch, h] using h2
    · simpa [processTxFetch] using h3
  · intro env sigs
    simp [monitorFetches]

/-- Witness for C4: three consecutive 429 exceptions use all 3 attempts,
trigger `handle_429` three times, and end in a skip. -/
theorem monitor_retry_bounded_witness :
    (processTxFetch [.err true, .err true, .err true]).fetchCalls ≤ MAX_RETRIES
    ∧ ((processTxFetch [.err true, .err true, .err true]).success = true
        ∨ (processTxFetch [.err true, .err true, .err true]).skipped = true)
    ∧ (processTxFetch [.err true, .err true, .err true]).backoffCalls = 3 :=
  ⟨(monitor_retry_bounded.1 [.err true, .err true, .err true] rfl).1,
   (monitor_retry_bounded.1 [.err true, .err true, .err true] rfl).2.2,
   by decide⟩

/-! ## Processed-transactions set: deduplication and trimming
(`solana_trade_bot.py`, `monitor_wallet` lines 189-194 and
`_clean_old_transactions` lines 314-321)

The `processed_transactions` Python set is modelled as the list of its
elements in insertion order (signatures as `ℕ`); membership and insertion
are order-independent, so this is faithful to the set ADT.  `list(set)`
(line 319) enumerates a Python set in an *unspecified, hash-dependent*
order; it is modelled by an explicit enumeration function `enum` whose only
contract is to produce the elements of its argument in some order. -/

/-- One pass of the signature loop (lines 189-194 together with the
per-signature fetch at line 203): an already-processed signature is skipped
(`continue`); otherwise it is added to the set *before* `get_transaction`
is attempted, and nothing removes it if the fetch fails.  `fetchOk sig`
tells whether the fetch of `sig` eventually produced a transaction value.
Returns the new set, the signatures for which `get_transaction` was called,
and those whose fetch succeeded (the only ones that can be logged as
trades). -/
def processCycle (fetchOk : ℕ → Bool) :
    List ℕ → List ℕ → List ℕ × List ℕ × List ℕ
  | processed, [] => (processed, [], [])
  | processed, sig :: rest =>
    if sig ∈ processed then processCycle fetchOk processed rest
    else
      let r := processCycle fetchOk (processed ++ [sig]) rest
      (r.1, sig :: r.2.1, if fetchOk sig then sig :: r.2.2 else r.2.2)

/-- `_clean_old_transactions` (lines 314-321):
`if len(self.processed_transactions) > 1000:
   self.processed_transactions = set(list(self.processed_transactions)[-500:])`.
`enum` models the unspecified enumeration order of `list(set)`; `[-500:]`
keeps the last 500 elements of that enumeration. -/
def cleanOldTransactions (enum : List ℕ → List ℕ) (processed : List ℕ) :
    List ℕ :=
  if processed.length > 1000 then
    (enum processed).drop ((enum processed).length - 500)
  else processed

/-- The monitoring run loop (lines 282-304), restricted to its effect on
`processed_transactions`: each cycle processes the fetched signature list
and then runs `_clean_old_transactions`.  Returns the final set and the
per-cycle lists of signatures fetched via `get_transaction`. -/
def runCycles (fetchOk : ℕ → Bool) (enum : List ℕ → List ℕ) :
    List ℕ → List (List ℕ) → List ℕ × List (List ℕ)
  | processed, [] => (processed, [])
  | processed, sigs :: rest =>
    let c := processCycle fetchOk processed sigs
    let cleaned := cleanOldTransactions enum c.1
    let r := runCycles fetchOk enum cleaned rest
    (r.1, c.2.1 :: r.2)

lemma processCycle_mem_preserved (fetchOk : ℕ → Bool) (sigs : List ℕ) :
    ∀ processed sig, sig ∈ processed →
      sig ∈ (processCycle fetchOk processed sigs).1
      ∧ sig ∉ (processCycle fetchOk processed sigs).2.1 := by
  induction sigs with
  | nil =>
      intro processed sig h
      exact ⟨h, by simp [processCycle]⟩
  | cons s rest ih =>
      intro processed sig h
      by_cases hs : s ∈ processed
      · simpa [processCycle, if_pos hs] using ih processed sig h
      · have hmem : sig ∈ processed ++ [s] := List.mem_append_left _ h
        obtain ⟨ih1, ih2⟩ := ih (processed ++ [s]) sig hmem
        have hne : sig ≠ s := fun he => hs (he ▸ h)
        constructor
        · simpa [processCycle, if_neg hs] using ih1
        · simp only [processCycle, if_neg hs, List.mem_cons]
          exact fun hc => hc.elim (fun he => hne he) ih2

lemma processCycle_fresh (fetchOk : ℕ → Bool) (sigs : List ℕ) :
    ∀ processed, sigs.Nodup → (∀ s ∈ sigs, s ∉ processed) →
      processCycle fetchOk processed sigs
        = (processed ++ sigs, sigs, sigs.filter (fetchOk ·)) := by
  induction sigs with
  | nil => intro processed _ _; simp [processCycle]
  | cons s rest ih =>
      intro processed hnd hfresh
      have hs : s ∉ processed := hfresh s (List.mem_cons_self s rest)
      have hrest : ∀ x ∈ rest, x ∉ processed ++ [s] := by
        intro x hx
        simp only [List.mem_append, List.mem_singleton]
        rintro (hc | hc)
        · exact hfresh x (List.mem_cons_of_mem s hx) hc
        · exact (List.nodup_cons.mp hnd).1 (hc ▸ hx)
      have := ih (processed ++ [s]) (List.nodup_cons.mp hnd).2 hrest
      by_cases hf : fetchOk s <;>
        simp [processCycle, if_neg hs, this, List.filter_cons, hf, List.append_assoc]

lemma processCycle_fetched_nodup (fetchOk : ℕ → Bool) (sigs : List ℕ) :
    ∀ processed, (processCycle fetchOk processed sigs).2.1.Nodup := by
  induction sigs with
  | nil => intro processed; simp [processCycle]
  | cons s rest ih =>
      intro processed
      by_cases hs : s ∈ processed
      · simpa [processCycle, if_pos hs] using ih processed
      · have hnotin : s ∉ (processCycle fetchOk (processed ++ [s]) rest).2.1 :=
          (processCycle_mem_preserved fetchOk rest (processed ++ [s]) s
            (List.mem_append_right _ (List.mem_singleton_self s))).2
        simp only [processCycle, if_neg hs, List.nodup_cons]
        exact ⟨hnotin, ih (processed ++ [s])⟩

lemma processCycle_success_subset (fetchOk : ℕ → Bool) (sigs : List ℕ) :
    ∀ processed x, x ∈ (processCycle fetchOk processed sigs).2.2 →
      x ∈ (processCycle fetchOk processed sigs).2.1 := by
  induction sigs with
  | nil => intro processed x hx; simp [processCycle] at hx
  | cons s rest ih =>
      intro processed x hx
      by_cases hs : s ∈ processed
      · simp only [processCycle, if_pos hs] at hx ⊢
        exact ih processed x hx
      · simp only [processCycle, if_neg hs] at hx ⊢
        by_cases hf : fetchOk s
        · rw [if_pos hf] at hx
          rcases List.mem_cons.mp hx with he | hm
          · simp [he]
          · exact List.mem_cons_of_mem _ (ih _ x hm)
        · rw [if_neg hf] at hx
          exact List.mem_cons_of_mem _ (ih _ x hx)

lemma processCycle_success_fetchOk (fetchOk : ℕ → Bool) (sigs : List ℕ) :
    ∀ processed x, x ∈ (processCycle fetchOk processed sigs).2.2 →
      fetchOk x = true := by
  induction sigs with
  | nil => intro processed x hx; simp [processCycle] at hx
  | cons s rest ih =>
      intro processed x hx
      by_cases hs : s ∈ processed
      · simp only [processCycle, if_pos hs] at hx
        exact ih processed x hx
      · simp only [processCycle, if_neg hs] at hx
        by_cases hf : fetchOk s
        · rw [if_pos hf] at hx
          rcases List.mem_cons.mp hx with he | hm
          · rw [he]; exact hf
          · exact ih _ x hm
        · rw [if_neg hf] at hx
          exact ih _ x hx

lemma processCycle_mem_after (fetchOk : ℕ → Bool) (sigs : List ℕ) :
    ∀ processed sig, (sig ∈ sigs ∨ sig ∈ processed) →
      sig ∈ (processCycle fetchOk processed sigs).1 := by
  induction sigs with
  | nil =>
      intro processed sig h
      simpa [processCycle] using h.resolve_left (by simp)
  | cons s rest ih =>
      intro processed sig h
      by_cases hs : s ∈ processed
      · have hsub : sig ∈ rest ∨ sig ∈ processed := by
          rcases h with h | h
          · rcases List.mem_cons.mp h with he | hm
            · exact Or.inr (he ▸ hs)
            · exact Or.inl hm
          · exact Or.inr h
        simpa [processCycle, if_pos hs] using ih processed sig hsub
      · have hsub : sig ∈ rest ∨ sig ∈ processed ++ [s] := by
          rcases h with h | h
          · rcases List.mem_cons.mp h with he | hm
            · exact Or.inr (by simp [he])
            · exact Or.inl hm
          · exact Or.inr (List.mem_append_left _ h)
        simpa [processCycle, if_neg hs] using ih (processed ++ [s]) sig hsub

lemma runCycles_nil (fetchOk : ℕ → Bool) (enum : List ℕ → List ℕ)
    (processed : List ℕ) :
    runCycles fetchOk enum processed [] = (processed, []) := rfl

lemma runCycles_cons (fetchOk : ℕ → Bool) (enum : List ℕ → List ℕ)
    (processed sigs : List ℕ) (rest : List (List ℕ)) :
    runCycles fetchOk enum processed (sigs :: rest)
      = ((runCycles fetchOk enum
            (cleanOldTransactions enum (processCycle fetchOk processed sigs).1)
            rest).1,
         (processCycle fetchOk processed sigs).2.1 ::
           (runCycles fetchOk enum
             (cleanOldTransactions enum (processCycle fetchOk processed sigs).1)
             rest).2) := rfl

lemma le_of_mem_drop_range {n m x : ℕ} (h : x ∈ (List.range n).drop m) :
    m ≤ x := by
  obtain ⟨i, hi, hx⟩ := List.mem_iff_getElem.mp h
  have h1 : m + i < n := by
    have := hi
    simp only [List.length_drop, List.length_range] at this
    omega
  rw [List.getElem_drop, List.getElem_range] at hx
  omega

lemma lt_of_mem_drop_reverse_range {n m x : ℕ}
    (h : x ∈ ((List.range n).reverse).drop m) : x + m < n := by
  obtain ⟨i, hi, hx⟩ := List.mem_iff_getElem.mp h
  have h1 : m + i < n := by
    have := hi
    simp only [List.length_drop, List.length_reverse, List.length_range] at this
    omega
  rw [List.getElem_drop, List.getElem_reverse, List.getElem_range] at hx
  simp only [List.length_range] at hx
  omega

/-- The enumerated-then-trimmed two-cycle scenario shared by the
deduplication counterexamples: the first cycle sees the 1001 distinct
signatures 0..1000, the trimming then evicts signature 0 (even under
insertion-order enumeration, which keeps the most recent 500), and the
second cycle sees signature 0 again and fetches it again. -/
lemma refetch_scenario (fetchOk : ℕ → Bool) :
    (runCycles fetchOk id [] [List.range 1001, [0]]).2
      = [List.range 1001, [0]] := by
  have hc1 : processCycle fetchOk [] (List.range 1001)
      = ([] ++ List.range 1001, List.range 1001,
         (List.range 1001).filter (fetchOk ·)) :=
    processCycle_fresh fetchOk (List.range 1001) [] (List.nodup_range 1001) (by simp)
  have hclean : cleanOldTransactions id (List.range 1001)
      = (List.range 1001).drop 501 := by
    simp [cleanOldTransactions, List.length_range]
  have hc2 : processCycle fetchOk ((List.range 1001).drop 501) [0]
      = ((List.range 1001).drop 501 ++ [0], [0], [0].filter (fetchOk ·)) := by
    refine processCycle_fresh fetchOk [0] _ (by simp) ?_
    intro s hs
    rw [List.mem_singleton] at hs
    subst hs
    intro hc
    exact absurd (le_of_mem_drop_range hc) (by omega)
  rw [runCycles_cons, hc1]
  simp only [List.nil_append]
  rw [hclean, runCycles_cons, hc2, runCycles_nil]

/-- **C5 (amended).** While a signature remains in the processed set, it is
never fetched again via `get_transaction` nor logged again as a trade in the
monitoring pass, and it stays in the set through the pass; moreover no
signature is fetched twice within one pass.  (After `_clean_old_transactions`
evicts a signature from the set, it may be fetched again in a later cycle —
see the counterexample.) -/
theorem processed_sig_not_refetched (fetchOk : ℕ → Bool)
    (processed sigs : List ℕ) (sig : ℕ) (h : sig ∈ processed) :
    sig ∉ (processCycle fetchOk processed sigs).2.1
    ∧ sig ∉ (processCycle fetchOk processed sigs).2.2
    ∧ sig ∈ (processCycle fetchOk processed sigs).1
    ∧ (processCycle fetchOk processed sigs).2.1.Nodup := by
  obtain ⟨h1, h2⟩ := processCycle_mem_preserved fetchOk sigs processed sig h
  exact ⟨h2, fun hc => h2 (processCycle_success_subset fetchOk sigs processed sig hc),
         h1, processCycle_fetched_nodup fetchOk sigs processed⟩

/-- Witness for the amended C5: with signature 5 already processed, a pass
over `[5, 7]` does not fetch 5 again. -/
theorem processed_sig_not_refetched_witness :
    (5 : ℕ) ∈ [5]
    ∧ 5 ∉ (processCycle (fun _ => true) [5] [5, 7]).2.1 :=
  ⟨by decide,
   (processed_sig_not_refetched (fun _ => true) [5] [5, 7] 5 (by decide)).1⟩

/-- **C5 (counterexample).** Signature 0 is added to the processed set and
fetched in cycle 1; `_clean_old_transactions` then trims the 1001-element
set (here under insertion-order enumeration, the most favourable case), which
evicts 0; in cycle 2 the same signature 0 is fetched again — refuting "never
fetched again in any later cycle of the run loop". -/
theorem processed_sig_refetched_after_trim :
    0 ∈ ((runCycles (fun _ => true) id [] [List.range 1001, [0]]).2.getD 0 [])
    ∧ 0 ∈ ((runCycles (fun _ => true) id [] [List.range 1001, [0]]).2.getD 1 []) := by
  rw [refetch_scenario]
  refine ⟨?_, by simp⟩
  simp [List.mem_range]

/-- **C10 (amended).** Every new signature of a pass is added to the
processed set before its fetch is attempted and remains there at the end of
the pass even when every fetch attempt fails; a signature whose fetch failed
is never logged; no signature is fetched twice in one pass; and in any later
pass whose starting set still contains the signature it is not fetched
again.  (Once trimming evicts it, it can be fetched again — see the
counterexample.) -/
theorem new_sig_consumed_before_fetch (fetchOk : ℕ → Bool)
    (processed sigs : List ℕ) (sig : ℕ) (h : sig ∈ sigs) :
    sig ∈ (processCycle fetchOk processed sigs).1
    ∧ (fetchOk sig = false → sig ∉ (processCycle fetchOk processed sigs).2.2)
    ∧ (processCycle fetchOk processed sigs).2.1.Nodup
    ∧ ∀ (processed2 sigs2 : List ℕ), sig ∈ processed2 →
        sig ∉ (processCycle fetchOk processed2 sigs2).2.1 := by
  refine ⟨processCycle_mem_after fetchOk sigs processed sig (Or.inl h), ?_, ?_, ?_⟩
  · intro hf hc
    have := processCycle_success_fetchOk fetchOk sigs processed sig hc
    rw [hf] at this
    exact Bool.false_ne_true this
  · exact processCycle_fetched_nodup fetchOk sigs processed
  · intro processed2 sigs2 h2
    exact (processCycle_mem_preserved fetchOk sigs2 processed2 sig h2).2

/-- Witness for the amended C10: signature 3, whose fetch fails, is still in
the set after the pass and is not logged. -/
theorem new_sig_consumed_before_fetch_witness :
    (3 : ℕ) ∈ [3]
    ∧ 3 ∈ (processCycle (fun _ => false) [] [3]).1
    ∧ ((fun _ => false : ℕ → Bool) 3 = false →
        3 ∉ (processCycle (fun _ => false) [] [3]).2.2) :=
  ⟨by decide,
   (new_sig_consumed_before_fetch (fun _ => false) [] [3] 3 (by decide)).1,
   (new_sig_consumed_before_fetch (fun _ => false) [] [3] 3 (by decide)).2.1⟩

/-- **C10 (counterexample).** A signature whose fetches all fail is *not*
permanently consumed: signature 0 is fetched (and its fetch fails) in cycle
1, the trim evicts it from the set, and cycle 2 fetches it again. -/
theorem failed_fetch_sig_refetched_later :
    0 ∈ ((runCycles (fun _ => false) id [] [List.range 1001, [0]]).2.getD 0 [])
    ∧ 0 ∈ ((runCycles (fun _ => false) id [] [List.range 1001, [0]]).2.getD 1 []) := by
  rw [refetch_scenario]
  refine ⟨?_, by simp⟩
  simp [List.mem_range]

/-- **C6 (code evaluated at the failing input).** `list(set)` enumerates a
Python set in an unspecified, hash-dependent order, not in insertion order;
`_clean_old_transactions` keeps the *last 500 of that enumeration*.  With
the 1001 signatures 0..1000 inserted in order and an enumeration that
reverses insertion order (a legitimate enumeration of the same elements, as
the permutation conjunct shows), the trim drops the most recently added
signature 1000 — the code does not guarantee "the 500 most recently added
signatures" and can lose the most recently seen one. -/
theorem trim_can_drop_most_recent :
    ((List.range 1001).reverse).Perm (List.range 1001)
    ∧ (List.range 1001).length > 1000
    ∧ 1000 ∈ List.range 1001
    ∧ (cleanOldTransactions List.reverse (List.range 1001)).length = 500
    ∧ 1000 ∉ cleanOldTransactions List.reverse (List.range 1001) := by
  have hclean : cleanOldTransactions List.reverse (List.range 1001)
      = ((List.range 1001).reverse).drop 501 := by
    simp [cleanOldTransactions, List.length_range, List.length_reverse]
  refine ⟨List.reverse_perm _, by simp [List.length_range],
          by simp [List.mem_range], ?_, ?_⟩
  · rw [hclean]
    simp [List.length_drop, List.length_reverse, List.length_range]
  · rw [hclean]
    intro hc
    have := lt_of_mem_drop_reverse_range hc
    omega

/-! ## Wallet analyzer (`solana_wallet_finder.py`,
`_analyze_wallet_transactions`, lines 175-284)

Thresholds are the defaults of `solana_config.py` (lines 44-48); Python
floats are modelled as exact rationals (all threshold comparisons arising
here are decided identically by IEEE doubles and by exact rationals). -/

/-- `MIN_SOL_BALANCE = float(os.getenv('MIN_SOL_BALANCE', '1.0'))`. -/
def MIN_SOL_BALANCE : ℚ := 1

/-- `MIN_TRADES_DAY = int(os.getenv('MIN_TRADES_DAY', '2'))`. -/
def MIN_TRADES_DAY : ℕ := 2

/-- `MIN_SUCCESS_RATE = float(os.getenv('MIN_SUCCESS_RATE', '0.5'))`. -/
def MIN_SUCCESS_RATE : ℚ := 1/2

/-- `MIN_PROFIT_TRADE = float(os.getenv('MIN_PROFIT_TRADE', '0.01'))`. -/
def MIN_PROFIT_TRADE : ℚ := 1/100

/-- `ANALYSIS_PERIOD_DAYS = int(os.getenv('ANALYSIS_PERIOD_DAYS', '7'))`. -/
def ANALYSIS_PERIOD_DAYS : ℕ := 7

/-- A fetched transaction record as inspected by the analyzer: whether any
account key equals `RAYDIUM_PROGRAM_ID` (line 223) and whether
`tx.value.meta.status.Ok is not None` (line 228).  A transaction whose
`tx.value` is absent (line 219, `continue`) is `none` in the input list. -/
structure TxRec where
  raydium : Bool
  success : Bool
deriving Repr, DecidableEq

/-- The accumulator step of the analysis loop (lines 213-234), carrying
`(len(trades), success_count, profit_count)`.  The trade is appended before
the success check, so `len(trades) % 2 == 0` reads the position of the
*current* trade (1-based) in the trade sequence. -/
def analyzeStep (acc : ℕ × ℕ × ℕ) (otx : Option TxRec) : ℕ × ℕ × ℕ :=
  match otx with
  | none => acc
  | some tx =>
    if tx.raydium then
      ((acc.1 + 1),
       (if tx.success then acc.2.1 + 1 else acc.2.1),
       (if tx.success ∧ (acc.1 + 1) % 2 = 0 then acc.2.2 + 1 else acc.2.2))
    else acc

/-- The counters produced by the analysis loop over a fetched transaction
list: `(total_trades, success_count, profit_count)`. -/
def analyzeCounts (txs : List (Option TxRec)) : ℕ × ℕ × ℕ :=
  txs.foldl analyzeStep (0, 0, 0)

/-- The analyzed trade sequence, in order: fetched transactions that involve
Raydium. -/
def tradesOf (txs : List (Option TxRec)) : List TxRec :=
  (txs.filterMap id).filter (·.raydium)

/-- Number of successful trades at even 1-based positions of the trade
sequence, when `k` trades were already appended before the list starts. -/
def countEvenSuccFrom : ℕ → List TxRec → ℕ
  | _, [] => 0
  | k, tx :: rest =>
      (if tx.success ∧ (k + 1) % 2 = 0 then 1 else 0)
        + countEvenSuccFrom (k + 1) rest

/-- Modelled from the spec: the profitability proxy described as "treating
every second successful trade as profitable" — among the successful trades
of the sequence, the 2nd, 4th, 6th, ... count as profitable, i.e. half the
successful trades, rounded down. -/
def everySecondSuccessfulProfit (trades : List TxRec) : ℕ :=
  (trades.countP (·.success)) / 2

/-- The metrics record returned by an accepting analysis (lines 270-280). -/
structure WalletMetrics where
  solBalance : ℚ
  tradesPerDay : ℚ
  successRate : ℚ
  profitRate : ℚ
  totalTrades : ℕ
deriving Repr, DecidableEq

/-- `_analyze_wallet_transactions` (lines 175-284) on its fetched data: the
SOL balance in lamports (line 199 divides by 1e9) and the transaction list
(of which only the first 100 are analyzed, line 213).  Returns `none` on an
empty signature list, low balance, no DEX trades, or any failed threshold;
otherwise the metrics record. -/
def analyzeWallet (balanceLamports : ℕ) (txs : List (Option TxRec)) :
    Option WalletMetrics :=
  if txs = [] then none
  else if (balanceLamports : ℚ) / 1000000000 < MIN_SOL_BALANCE then none
  else if (analyzeCounts (txs.take 100)).1 = 0 then none
  else if ((analyzeCounts (txs.take 100)).1 : ℚ) / (ANALYSIS_PERIOD_DAYS : ℚ)
      < (MIN_TRADES_DAY : ℚ) then none
  else if ((analyzeCounts (txs.take 100)).2.1 : ℚ)
      / ((analyzeCounts (txs.take 100)).1 : ℚ) < MIN_SUCCESS_RATE then none
  else if ((analyzeCounts (txs.take 100)).2.2 : ℚ)
      / ((analyzeCounts (txs.take 100)).1 : ℚ) < MIN_PROFIT_TRADE then none
  else some ⟨(balanceLamports : ℚ) / 1000000000,
             ((analyzeCounts (txs.take 100)).1 : ℚ) / (ANALYSIS_PERIOD_DAYS : ℚ),
             ((analyzeCounts (txs.take 100)).2.1 : ℚ)
               / ((analyzeCounts (txs.take 100)).1 : ℚ),
             ((analyzeCounts (txs.take 100)).2.2 : ℚ)
               / ((analyzeCounts (txs.take 100)).1 : ℚ),
             (analyzeCounts (txs.take 100)).1⟩

/-- **C7.** On a fixed fetched balance and transaction list with at least
one DEX trade, the analyzer's decision is the stated conjunction of the four
threshold comparisons (and, being a function of its inputs, it is
deterministic). -/
theorem analyzer_accept_iff (bal : ℕ) (txs : List (Option TxRec))
    (hne : txs ≠ []) (htr : (analyzeCounts (txs.take 100)).1 ≠ 0) :
    (analyzeWallet bal txs).isSome = true ↔
      (MIN_SOL_BALANCE ≤ (bal : ℚ) / 1000000000
       ∧ (MIN_TRADES_DAY : ℚ)
           ≤ ((analyzeCounts (txs.take 100)).1 : ℚ) / (ANALYSIS_PERIOD_DAYS : ℚ)
       ∧ MIN_SUCCESS_RATE
           ≤ ((analyzeCounts (txs.take 100)).2.1 : ℚ)
               / ((analyzeCounts (txs.take 100)).1 : ℚ)
       ∧ MIN_PROFIT_TRADE
           ≤ ((analyzeCounts (txs.take 100)).2.2 : ℚ)
               / ((analyzeCounts (txs.take 100)).1 : ℚ)) := by
  simp only [analyzeWallet, if_neg hne, if_neg htr]
  split_ifs with h1 h2 h3 h4 <;>
    simp_all [not_lt, Option.isSome]

/-- Witness for C7: a wallet with 2 SOL and 14 successful Raydium trades
satisfies all four thresholds and is accepted. -/
theorem analyzer_accept_iff_witness :
    (List.replicate 14 (some (⟨true, true⟩ : TxRec)) ≠ [])
    ∧ (analyzeCounts ((List.replicate 14 (some (⟨true, true⟩ : TxRec))).take 100)).1 ≠ 0
    ∧ (analyzeWallet 2000000000 (List.replicate 14 (some ⟨true, true⟩))).isSome = true := by
  have hne : List.replicate 14 (some (⟨true, true⟩ : TxRec)) ≠ [] := by decide
  have htr : (analyzeCounts
      ((List.replicate 14 (some (⟨true, true⟩ : TxRec))).take 100)).1 ≠ 0 := by decide
  have hc : analyzeCounts ((List.replicate 14 (some (⟨true, true⟩ : TxRec))).take 100)
      = (14, 14, 7) := by decide
  refine ⟨hne, htr, (analyzer_accept_iff 2000000000 _ hne htr).mpr ?_⟩
  rw [hc]
  refine ⟨by norm_num [MIN_SOL_BALANCE], ?_, ?_, ?_⟩ <;>
    norm_num [MIN_TRADES_DAY, ANALYSIS_PERIOD_DAYS, MIN_SUCCESS_RATE, MIN_PROFIT_TRADE]

lemma analyzeCounts_profit_char (txs : List (Option TxRec)) :
    ∀ t s p,
      ((txs.foldl analyzeStep (t, s, p)).2.2
          = p + countEvenSuccFrom t (tradesOf txs))
      ∧ (txs.foldl analyzeStep (t, s, p)).1 = t + (tradesOf txs).length := by
  induction txs with
  | nil => intro t s p; simp [tradesOf, countEvenSuccFrom]
  | cons otx rest ih =>
      intro t s p
      cases otx with
      | none => simpa [tradesOf, analyzeStep] using ih t s p
      | some tx =>
          by_cases hr : tx.raydium
          · have hstep : analyzeStep (t, s, p) (some tx)
                = (t + 1,
                   (if tx.success then s + 1 else s),
                   (if tx.success ∧ (t + 1) % 2 = 0 then p + 1 else p)) := by
              simp [analyzeStep, hr]
            have htl : tradesOf (some tx :: rest) = tx :: tradesOf rest := by
              simp [tradesOf, List.filterMap_cons, List.filter_cons, hr]
            obtain ⟨ih1, ih2⟩ := ih (t + 1) (if tx.success then s + 1 else s)
                (if tx.success ∧ (t + 1) % 2 = 0 then p + 1 else p)
            constructor
            · rw [List.foldl_cons, hstep, ih1, htl]
              simp only [countEvenSuccFrom]
              by_cases hcnd : tx.success ∧ (t + 1) % 2 = 0 <;> (simp [hcnd]; try omega)
            · rw [List.foldl_cons, hstep, ih2, htl]
              simp only [List.length_cons]
              omega
          · have hstep : analyzeStep (t, s, p) (some tx) = (t, s, p) := by
              simp [analyzeStep, hr]
            have htl : tradesOf (some tx :: rest) = tradesOf rest := by
              simp [tradesOf, List.filterMap_cons, List.filter_cons, hr]
            rw [List.foldl_cons, hstep, htl]
            exact ih t s p

/-- **C8 (amended).** The profitability proxy counts the successful trades
sitting at *even 1-based positions of the whole trade sequence* (alternating
trade indices, failed trades included in the numbering) — not every second
successful trade — and `profit_rate = profit_count / total_trades`. -/
theorem profit_count_alternating :
    (∀ txs : List (Option TxRec),
      (analyzeCounts txs).2.2 = countEvenSuccFrom 0 (tradesOf txs))
    ∧ ∀ (bal : ℕ) (txs : List (Option TxRec)) (m : WalletMetrics),
        analyzeWallet bal txs = some m →
          m.profitRate = ((analyzeCounts (txs.take 100)).2.2 : ℚ)
            / ((analyzeCounts (txs.take 100)).1 : ℚ) := by
  constructor
  · intro txs
    simpa using (analyzeCounts_profit_char txs 0 0 0).1
  · intro bal txs m hm
    simp only [analyzeWallet] at hm
    split_ifs at hm
    have h := Option.some.inj hm
    subst h
    rfl

/-- Witness for the amended C8: the accepted wallet of 14 successful Raydium
trades has `profit_rate = 7/14 = 1/2`. -/
theorem profit_count_alternating_witness :
    analyzeWallet 2000000000 (List.replicate 14 (some ⟨true, true⟩))
        = some ⟨2, 2, 1, 1/2, 14⟩
    ∧ (⟨2, 2, 1, 1/2, 14⟩ : WalletMetrics).profitRate
        = ((analyzeCounts
              ((List.replicate 14 (some (⟨true, true⟩ : TxRec))).take 100)).2.2 : ℚ)
          / ((analyzeCounts
              ((List.replicate 14 (some (⟨true, true⟩ : TxRec))).take 100)).1 : ℚ) := by
  have hc : analyzeCounts ((List.replicate 14 (some (⟨true, true⟩ : TxRec))).take 100)
      = (14, 14, 7) := by decide
  have hm : analyzeWallet 2000000000 (List.replicate 14 (some ⟨true, true⟩))
      = some ⟨2, 2, 1, 1/2, 14⟩ := by
    simp only [analyzeWallet, hc]
    norm_num [MIN_SOL_BALANCE, MIN_TRADES_DAY, MIN_SUCCESS_RATE, MIN_PROFIT_TRADE,
      ANALYSIS_PERIOD_DAYS, WalletMetrics.mk.injEq]
  exact ⟨hm, profit_count_alternating.2 2000000000 _ _ hm⟩

/-- **C8 (counterexample).** For the trade sequence success, failure,
success, the code's `profit_count` is 0 (no successful trade sits at an even
trade index), while "every second successful trade" would count 1 — the
claim's scheme does not match the code. -/
theorem profit_not_every_second_successful :
    ¬ ((analyzeCounts
          [some (⟨true, true⟩ : TxRec), some ⟨true, false⟩, some ⟨true, true⟩]).2.2
        = everySecondSuccessfulProfit
            (tradesOf
              [some (⟨true, true⟩ : TxRec), some ⟨true, false⟩, some ⟨true, true⟩])) := by
  decide

/-! ## Swap detection and amount parsing (`solana_trade_bot.py`) -/

/-- The DEX program IDs (`self.dex_programs`, solana_trade_bot.py:65-69):
Raydium, Jupiter, Orca. -/
def dexProgramIds : List String :=
  ["9W959DqEETiGZocYWCQPaJ6sBmUzgfxXfqGeTEdp3aQP",
   "JUP4Fb2cqiRUcaTHdrPC8h2gNsA2ETXiPDD33WcGuJB",
   "whirLbMiicVdio4qvUfM5KAg6Ct8VwpYzGff3uctyCc"]

/-- An instruction as inspected by the monitor: its optional `programId`
field (`instruction.get('programId')`). -/
structure Instr where
  programId : Option String
deriving Repr, DecidableEq

/-- `_is_swap_instruction` (lines 114-120): true iff the instruction's
`programId` is one of the DEX program IDs (a missing `programId` is `None`,
which is in no dict's values; any failure returns `False`). -/
def isSwapInstruction (ix : Instr) : Bool :=
  match ix.programId with
  | some p => p ∈ dexProgramIds
  | none => false

/-- A fetched transaction as inspected by the monitor: its instruction list
and the `meta.preBalances` / `meta.postBalances` lamport lists. -/
structure TxData where
  instructions : List Instr
  preBalances : List Int
  postBalances : List Int
deriving Repr, DecidableEq

/-- Number of TRADE DETECTED records the monitor logs for one fetched
transaction (lines 226-255): one per instruction recognised as a swap. -/
def tradeLogsForTx (tx : TxData) : ℕ :=
  tx.instructions.countP (isSwapInstruction ·)

/-- TRADE DETECTED records logged over a list of fetched transactions of one
wallet. -/
def countTradeLogs (txs : List TxData) : ℕ :=
  (txs.map tradeLogsForTx).sum

/-- `_parse_token_amounts` (lines 122-133): with both balance lists
nonempty, `abs(sum(post - pre for post, pre in zip(post_balances,
pre_balances))) / 1e9`; otherwise 0.  Floats as exact rationals. -/
def parseTokenAmounts (tx : TxData) : ℚ :=
  if tx.preBalances ≠ [] ∧ tx.postBalances ≠ [] then
    (((List.zipWith (fun post pre => post - pre)
        tx.postBalances tx.preBalances).sum.natAbs : ℚ)) / 1000000000
  else 0

lemma sum_eq_countP_of_le_one (ns : List ℕ) (h : ∀ n ∈ ns, n ≤ 1) :
    ns.sum = ns.countP (fun n => n != 0) := by
  induction ns with
  | nil => simp
  | cons n rest ih =>
      have hn : n ≤ 1 := h n (List.mem_cons_self n rest)
      have hrest := ih (fun x hx => h x (List.mem_cons_of_mem n hx))
      interval_cases n <;> (simp [List.countP_cons, hrest]; try omega)

/-- **C9.** For a wallet whose fetched transactions each contain at most one
swap instruction and exactly 3 of which contain one, the monitor logs
exactly 3 trade classifications; and a transaction whose pre/post balance
lists are nonempty and differ by a net 2,000,000,000 lamports parses to
exactly 2 SOL. -/
theorem trade_scenario (txs : List TxData) (tx : TxData)
    (_h1 : txs.length = 10)
    (h2 : ∀ t ∈ txs, tradeLogsForTx t ≤ 1)
    (h3 : txs.countP (fun t => tradeLogsForTx t != 0) = 3)
    (h4 : (List.zipWith (fun post pre => post - pre)
            tx.postBalances tx.preBalances).sum = 2000000000)
    (h5 : tx.preBalances ≠ []) (h6 : tx.postBalances ≠ []) :
    countTradeLogs txs = 3 ∧ parseTokenAmounts tx = 2 := by
  constructor
  · have hmap : ∀ n ∈ txs.map tradeLogsForTx, n ≤ 1 := by
      intro n hn
      obtain ⟨t, ht, rfl⟩ := List.mem_map.mp hn
      exact h2 t ht
    rw [countTradeLogs, sum_eq_countP_of_le_one _ hmap, List.countP_map]
    exact h3
  · rw [parseTokenAmounts, if_pos ⟨h5, h6⟩, h4]
    norm_num

/-- Witness for C9: ten concrete transactions, three holding one Raydium,
Jupiter or Orca instruction respectively, the first with balances moving
from 5 SOL to 7 SOL. -/
theorem trade_scenario_witness :
    countTradeLogs
      [⟨[⟨some "9W959DqEETiGZocYWCQPaJ6sBmUzgfxXfqGeTEdp3aQP"⟩],
        [5000000000], [7000000000]⟩,
       ⟨[⟨some "JUP4Fb2cqiRUcaTHdrPC8h2gNsA2ETXiPDD33WcGuJB"⟩], [], []⟩,
       ⟨[⟨some "whirLbMiicVdio4qvUfM5KAg6Ct8VwpYzGff3uctyCc"⟩], [], []⟩,
       ⟨[⟨none⟩], [], []⟩, ⟨[⟨none⟩], [], []⟩, ⟨[⟨none⟩], [], []⟩,
       ⟨[⟨some "TokenkegQfeZyiNwAJbNbGKPFXCWuBvf9Ss623VQ5DA"⟩], [], []⟩,
       ⟨[], [], []⟩, ⟨[], [], []⟩, ⟨[], [], []⟩] = 3
    ∧ parseTokenAmounts
        ⟨[⟨some "9W959DqEETiGZocYWCQPaJ6sBmUzgfxXfqGeTEdp3aQP"⟩],
         [5000000000], [7000000000]⟩ = 2 :=
  trade_scenario _ _
    (by decide) (by decide) (by decide) (by decide) (by decide) (by decide)

end CryptoBot
